import Mathlib

/-!
Verification of the `octo` package (Cayley and Klein octonions).

The package represents an octonion as an ordered pair of quaternions
(`[2]*quat.Hamilton` in the Go source).  Two models are developed:

* an exact model over `ℚ`, used for the algebraic claims — the spec calls
  the arithmetic "exact-formula"; float rounding is not modelled there;
* a float model `F` with signed infinities and NaN, used for the claims
  about special values and string rendering (rounding and overflow of
  finite arithmetic are not modelled; the finite part is exact).

The quaternion type `quat.Hamilton` is an external dependency of the
repository (github.com/meirizarrygelpi/quat), not part of its source; it
is modelled from the spec's collaborator contract as standard Hamilton
quaternion arithmetic.
-/

/-- Modelled from the spec: the external quaternion collaborator
`quat.Hamilton` — four real coordinates `a + b·i + c·j + d·k`. -/
structure Hamilton where
  a : ℚ
  b : ℚ
  c : ℚ
  d : ℚ
deriving DecidableEq

/-- The quaternion zero (the Go literal `quat.Hamilton{0, 0}`). -/
def Hamilton.zero : Hamilton := ⟨0, 0, 0, 0⟩

/-- Modelled from the spec: quaternion addition (collaborator contract). -/
def Hamilton.Add (x y : Hamilton) : Hamilton :=
  ⟨x.a + y.a, x.b + y.b, x.c + y.c, x.d + y.d⟩

/-- Modelled from the spec: quaternion subtraction (collaborator contract). -/
def Hamilton.Sub (x y : Hamilton) : Hamilton :=
  ⟨x.a - y.a, x.b - y.b, x.c - y.c, x.d - y.d⟩

/-- Modelled from the spec: quaternion negation (collaborator contract). -/
def Hamilton.Neg (y : Hamilton) : Hamilton :=
  ⟨-y.a, -y.b, -y.c, -y.d⟩

/-- Modelled from the spec: quaternion dilation by a real (collaborator
contract). -/
def Hamilton.Dil (y : Hamilton) (s : ℚ) : Hamilton :=
  ⟨y.a * s, y.b * s, y.c * s, y.d * s⟩

/-- Modelled from the spec: quaternion conjugation (collaborator contract). -/
def Hamilton.Conj (y : Hamilton) : Hamilton :=
  ⟨y.a, -y.b, -y.c, -y.d⟩

/-- Modelled from the spec: the Hamilton quaternion product
(collaborator contract; `i·j = k` convention). -/
def Hamilton.Mul (x y : Hamilton) : Hamilton :=
  ⟨x.a * y.a - x.b * y.b - x.c * y.c - x.d * y.d,
   x.a * y.b + x.b * y.a + x.c * y.d - x.d * y.c,
   x.a * y.c - x.b * y.d + x.c * y.a + x.d * y.b,
   x.a * y.d + x.b * y.c - x.c * y.b + x.d * y.a⟩

/-- Modelled from the spec: quaternion quadrance, the sum of the squares of
the four coordinates (collaborator contract). -/
def Hamilton.Quad (y : Hamilton) : ℚ :=
  y.a ^ 2 + y.b ^ 2 + y.c ^ 2 + y.d ^ 2

/-- An octonion value: an ordered pair of quaternions.  Both `Cayley` and
`Klein` in the source are `[2]*quat.Hamilton`; the two variants share this
shape and differ only in their operations, so one Lean carrier serves both
(the variant-specific operations live in the `Cayley` and `Klein`
namespaces). -/
structure Octo where
  p : Hamilton
  q : Hamilton
deriving DecidableEq

/-- The additive identity: both quaternion components zero (the Go literal
`Cayley{&quat.Hamilton{0, 0}, &quat.Hamilton{0, 0}}`). -/
def Octo.zero : Octo := ⟨Hamilton.zero, Hamilton.zero⟩

/-- `NewCayley` (src/cayley.go): builds a value from eight reals, four per
quaternion half.  `NewKlein` is identical. -/
def NewOcto (a b c d e f g h : ℚ) : Octo := ⟨⟨a, b, c, d⟩, ⟨e, f, g, h⟩⟩

/-- `Cayley.Mul` (src/cayley.go lines 164-176): for `x = (p, q)` and
`y = (r, s)` the result is `(p·r − conj(s)·q, s·p + q·conj(r))`. -/
def Cayley.Mul (x y : Octo) : Octo :=
  ⟨Hamilton.Sub (Hamilton.Mul x.p y.p) (Hamilton.Mul (Hamilton.Conj y.q) x.q),
   Hamilton.Add (Hamilton.Mul y.q x.p) (Hamilton.Mul x.q (Hamilton.Conj y.p))⟩

/-- `Klein.Mul` (src/unnamed/part_000 lines 165-177): same as `Cayley.Mul`
except the first component adds instead of subtracting. -/
def Klein.Mul (x y : Octo) : Octo :=
  ⟨Hamilton.Add (Hamilton.Mul x.p y.p) (Hamilton.Mul (Hamilton.Conj y.q) x.q),
   Hamilton.Add (Hamilton.Mul y.q x.p) (Hamilton.Mul x.q (Hamilton.Conj y.p))⟩

/-- `Cayley.Quad` (src/cayley.go lines 192-195). -/
def Cayley.Quad (z : Octo) : ℚ := z.p.Quad + z.q.Quad

/-- `Klein.Quad` (src/unnamed/part_000 lines 193-196). -/
def Klein.Quad (z : Octo) : ℚ := z.p.Quad - z.q.Quad

/-- `Cayley.Conj` (src/cayley.go lines 142-146). -/
def Cayley.Conj (y : Octo) : Octo := ⟨y.p.Conj, y.q.Neg⟩

/-- `Klein.Conj` (src/unnamed/part_000 lines 143-147); identical body. -/
def Klein.Conj (y : Octo) : Octo := ⟨y.p.Conj, y.q.Neg⟩

/-- `Cayley.ScalR` (src/cayley.go lines 110-114): right-multiplies each
quaternion half by `a`. -/
def Cayley.ScalR (y : Octo) (a : Hamilton) : Octo :=
  ⟨Hamilton.Mul y.p a, Hamilton.Mul y.q a⟩

/-- `Cayley.ScalL` (src/cayley.go lines 120-124): left-multiplies each
quaternion half by `a`. -/
def Cayley.ScalL (a : Hamilton) (y : Octo) : Octo :=
  ⟨Hamilton.Mul a y.p, Hamilton.Mul a y.q⟩

/-- `Klein.ScalR` (src/unnamed/part_000); identical body to `Cayley.ScalR`. -/
def Klein.ScalR (y : Octo) (a : Hamilton) : Octo :=
  ⟨Hamilton.Mul y.p a, Hamilton.Mul y.q a⟩

/-- `Klein.ScalL` (src/unnamed/part_000); identical body to `Cayley.ScalL`. -/
def Klein.ScalL (a : Hamilton) (y : Octo) : Octo :=
  ⟨Hamilton.Mul a y.p, Hamilton.Mul a y.q⟩

/-- `Cayley.Dil` (src/cayley.go): dilates both halves by the real `s`. -/
def Cayley.Dil (y : Octo) (s : ℚ) : Octo := ⟨y.p.Dil s, y.q.Dil s⟩

/-- `Klein.Dil` (src/unnamed/part_000); identical body. -/
def Klein.Dil (y : Octo) (s : ℚ) : Octo := ⟨y.p.Dil s, y.q.Dil s⟩

/-- `Cayley.Add` (src/cayley.go). -/
def Cayley.Add (x y : Octo) : Octo := ⟨x.p.Add y.p, x.q.Add y.q⟩

/-- `Cayley.Inv` (src/cayley.go lines 199-204): panics (here `none`) when
`y` equals the additive-identity literal, otherwise the conjugate dilated
by `1/Quad y`. -/
def Cayley.Inv (y : Octo) : Option Octo :=
  if y = Octo.zero then none
  else some (Cayley.Dil (Cayley.Conj y) (1 / Cayley.Quad y))

/-- `Cayley.Quo` (src/cayley.go lines 208-213): panics (here `none`) when
`y` equals the additive-identity literal, otherwise
`Mul(x, Conj(y))` dilated by `1/Quad y`. -/
def Cayley.Quo (x y : Octo) : Option Octo :=
  if y = Octo.zero then none
  else some (Cayley.Dil (Cayley.Mul x (Cayley.Conj y)) (1 / Cayley.Quad y))

/-- Modelled from the spec: `Klein.Inv` is absent from src (the Klein file
ends at `Quad`); per spec §4.1, Inverse(y) is Conjugate(y) dilated by
`1/Quadrance(y)` with the same zero-literal guard as the definite variant. -/
def Klein.Inv (y : Octo) : Option Octo :=
  if y = Octo.zero then none
  else some (Klein.Dil (Klein.Conj y) (1 / Klein.Quad y))

/-- Modelled from the spec: `Klein.Quo` is absent from src; per spec §4.1,
Quotient(x, y) is `Multiply(x, Conjugate(y))` dilated by `1/Quadrance(y)`
with the same zero-literal guard. -/
def Klein.Quo (x y : Octo) : Option Octo :=
  if y = Octo.zero then none
  else some (Klein.Dil (Klein.Mul x (Klein.Conj y)) (1 / Klein.Quad y))

/-- Modelled float64 values: exact finite rationals plus the IEEE special
values.  Rounding and overflow of finite arithmetic are not modelled (the
finite part is exact); negative zero is identified with zero. -/
inductive F where
  | fin (x : ℚ)
  | pinf
  | ninf
  | nan
deriving DecidableEq

/-- IEEE negation on modelled floats. -/
def negF : F → F
  | F.fin x => F.fin (-x)
  | F.pinf => F.ninf
  | F.ninf => F.pinf
  | F.nan => F.nan

/-- IEEE addition on modelled floats (exact on the finite part). -/
def addF : F → F → F
  | F.nan, _ => F.nan
  | _, F.nan => F.nan
  | F.fin x, F.fin y => F.fin (x + y)
  | F.fin _, F.pinf => F.pinf
  | F.fin _, F.ninf => F.ninf
  | F.pinf, F.fin _ => F.pinf
  | F.ninf, F.fin _ => F.ninf
  | F.pinf, F.pinf => F.pinf
  | F.pinf, F.ninf => F.nan
  | F.ninf, F.pinf => F.nan
  | F.ninf, F.ninf => F.ninf

/-- IEEE subtraction on modelled floats. -/
def subF (x y : F) : F := addF x (negF y)

/-- IEEE multiplication on modelled floats (exact on the finite part;
zero times an infinity is NaN). -/
def mulF : F → F → F
  | F.nan, _ => F.nan
  | _, F.nan => F.nan
  | F.fin x, F.fin y => F.fin (x * y)
  | F.fin x, F.pinf => if x = 0 then F.nan else if 0 < x then F.pinf else F.ninf
  | F.fin x, F.ninf => if x = 0 then F.nan else if 0 < x then F.ninf else F.pinf
  | F.pinf, F.fin y => if y = 0 then F.nan else if 0 < y then F.pinf else F.ninf
  | F.ninf, F.fin y => if y = 0 then F.nan else if 0 < y then F.ninf else F.pinf
  | F.pinf, F.pinf => F.pinf
  | F.pinf, F.ninf => F.ninf
  | F.ninf, F.pinf => F.ninf
  | F.ninf, F.ninf => F.pinf

/-- The Go expression `1/x` on a modelled float: division of one by zero
yields positive infinity (the zero produced by `a - a` is `+0`). -/
def oneDivF : F → F
  | F.fin x => if x = 0 then F.pinf else F.fin (1 / x)
  | F.pinf => F.fin 0
  | F.ninf => F.fin 0
  | F.nan => F.nan

/-- `math.Signbit` on a modelled float (NaN and `+Inf` report false). -/
def signbitF : F → Bool
  | F.fin x => decide (x < 0)
  | F.pinf => false
  | F.ninf => true
  | F.nan => false

/-- True exactly on finite modelled floats. -/
def isFinF : F → Bool
  | F.fin _ => true
  | _ => false

/-- `math.IsInf(v, 0)`: true on either infinity. -/
def isInfF : F → Bool
  | F.pinf => true
  | F.ninf => true
  | _ => false

/-- `math.IsNaN`. -/
def isNanF : F → Bool
  | F.nan => true
  | _ => false

/-- The float-model quaternion (`quat.Hamilton` with special values). -/
structure HamiltonE where
  a : F
  b : F
  c : F
  d : F
deriving DecidableEq

/-- The float-model quaternion zero. -/
def HamiltonE.zero : HamiltonE := ⟨F.fin 0, F.fin 0, F.fin 0, F.fin 0⟩

/-- Modelled from the spec: quaternion negation (collaborator contract),
float model. -/
def HamiltonE.Neg (y : HamiltonE) : HamiltonE :=
  ⟨negF y.a, negF y.b, negF y.c, negF y.d⟩

/-- Modelled from the spec: quaternion conjugation (collaborator contract),
float model. -/
def HamiltonE.Conj (y : HamiltonE) : HamiltonE :=
  ⟨y.a, negF y.b, negF y.c, negF y.d⟩

/-- Modelled from the spec: quaternion dilation by a real (collaborator
contract), float model — each coordinate is multiplied by `s`. -/
def HamiltonE.Dil (y : HamiltonE) (s : F) : HamiltonE :=
  ⟨mulF y.a s, mulF y.b s, mulF y.c s, mulF y.d s⟩

/-- Modelled from the spec: quaternion quadrance (collaborator contract),
float model — the sum of the squares of the four coordinates. -/
def HamiltonE.Quad (y : HamiltonE) : F :=
  addF (addF (addF (mulF y.a y.a) (mulF y.b y.b)) (mulF y.c y.c)) (mulF y.d y.d)

/-- Modelled from the spec: `quat.Hamilton.IsInf` — true iff any of the four
coordinates is infinite (collaborator contract). -/
def HamiltonE.IsInf (y : HamiltonE) : Bool :=
  isInfF y.a || isInfF y.b || isInfF y.c || isInfF y.d

/-- Modelled from the spec: `quat.Hamilton.IsNaN` reports a NaN coordinate
(collaborator contract). -/
def HamiltonE.IsNaN (y : HamiltonE) : Bool :=
  isNanF y.a || isNanF y.b || isNanF y.c || isNanF y.d

/-- The float-model octonion: an ordered pair of float-model quaternions
(again one carrier for both variants). -/
structure OctoE where
  p : HamiltonE
  q : HamiltonE
deriving DecidableEq

/-- The float-model additive identity. -/
def OctoE.zero : OctoE := ⟨HamiltonE.zero, HamiltonE.zero⟩

/-- `NewCayley` / `NewKlein` in the float model. -/
def NewOctoE (a b c d e f g h : F) : OctoE := ⟨⟨a, b, c, d⟩, ⟨e, f, g, h⟩⟩

/-- `Cayley.IsInf` (src/cayley.go lines 72-77). -/
def CayleyE.IsInf (z : OctoE) : Bool := z.p.IsInf || z.q.IsInf

/-- `Cayley.IsNaN` (src/cayley.go lines 88-96): reports false when either
half is infinite, else true when either half reports NaN. -/
def CayleyE.IsNaN (z : OctoE) : Bool :=
  if z.p.IsInf || z.q.IsInf then false
  else if z.p.IsNaN || z.q.IsNaN then true
  else false

/-- `Klein.IsInf` (src/unnamed/part_000); identical body. -/
def KleinE.IsInf (z : OctoE) : Bool := z.p.IsInf || z.q.IsInf

/-- `Klein.IsNaN` (src/unnamed/part_000 lines 89-97); identical body. -/
def KleinE.IsNaN (z : OctoE) : Bool :=
  if z.p.IsInf || z.q.IsInf then false
  else if z.p.IsNaN || z.q.IsNaN then true
  else false

/-- `Klein.Quad` (src/unnamed/part_000 lines 193-196) in the float model. -/
def KleinE.Quad (z : OctoE) : F := subF z.p.Quad z.q.Quad

/-- `Klein.Conj` (src/unnamed/part_000 lines 143-147) in the float model. -/
def KleinE.Conj (y : OctoE) : OctoE := ⟨y.p.Conj, y.q.Neg⟩

/-- `Klein.Dil` (src/unnamed/part_000) in the float model. -/
def KleinE.Dil (y : OctoE) (s : F) : OctoE := ⟨y.p.Dil s, y.q.Dil s⟩

/-- Modelled from the spec: `Klein.Inv` is absent from src; per spec §4.1 it
is Conjugate(y) dilated by `1/Quadrance(y)`, guarded only by the literal
zero value — here in the float model, so that dilation by `1/0 = +Inf` is
observable. -/
def KleinE.Inv (y : OctoE) : Option OctoE :=
  if y = OctoE.zero then none
  else some (KleinE.Dil (KleinE.Conj y) (oneDivF (KleinE.Quad y)))

/-- Renders the magnitude of a finite coordinate as Go's `%g` does for
integer-valued floats (decimal digits, no decimal point); non-integer
magnitudes — never produced by the claims under check — are abstracted as
`num/den`. -/
def fmtMag (x : ℚ) : String :=
  if x.den = 1 then Nat.repr x.num.toNat
  else Nat.repr x.num.toNat ++ "/" ++ Nat.repr x.den

/-- Go's `fmt.Sprintf("%g", v)` on a finite modelled float: a leading `-`
for negative values, then the magnitude. -/
def fmtQ (x : ℚ) : String :=
  if x < 0 then "-" ++ fmtMag (-x) else fmtMag x

/-- Go's `fmt.Sprintf("%g", v)` on a modelled float (`+Inf`, `-Inf` and
`NaN` render with those literal spellings). -/
def fmtG : F → String
  | F.fin x => fmtQ x
  | F.pinf => "+Inf"
  | F.ninf => "-Inf"
  | F.nan => "NaN"

/-- The per-coefficient token of the rendering loop (src/cayley.go lines
31-40): `%g` when the sign bit is set, the literal `"+Inf"` for positive
infinity, otherwise an explicit `+` followed by `%g`. -/
def coeffTok (v : F) : String :=
  if signbitF v then fmtG v
  else if v = F.pinf then "+Inf"
  else "+" ++ fmtG v

/-- `Cayley.String` (src/cayley.go lines 20-44): parenthesised coefficients
with basis symbols `i j k m n p q` between them. -/
def CayleyE.toString (z : OctoE) : String :=
  "(" ++ fmtG z.p.a ++
    coeffTok z.p.b ++ "i" ++ coeffTok z.p.c ++ "j" ++ coeffTok z.p.d ++ "k" ++
    coeffTok z.q.a ++ "m" ++ coeffTok z.q.b ++ "n" ++ coeffTok z.q.c ++ "p" ++
    coeffTok z.q.d ++ "q" ++ ")"

/-- `Klein.String` (src/unnamed/part_000 lines 21-45): identical except the
basis symbols are `i j k s t u v`. -/
def KleinE.toString (z : OctoE) : String :=
  "(" ++ fmtG z.p.a ++
    coeffTok z.p.b ++ "i" ++ coeffTok z.p.c ++ "j" ++ coeffTok z.p.d ++ "k" ++
    coeffTok z.q.a ++ "s" ++ coeffTok z.q.b ++ "t" ++ coeffTok z.q.c ++ "u" ++
    coeffTok z.q.d ++ "v" ++ ")"

/-- `RectCayley` (src/cayley.go lines 217-232): `new(Cayley)` leaves both
quaternion pointers nil and every coordinate assignment in the body is
commented out, so the function returns the untouched value whatever its
arguments.  A nil pointer is modelled by `none`. -/
def RectCayley (r t1 t2 t3 t4 t5 t6 t7 : ℚ) : Option Hamilton × Option Hamilton :=
  (none, none)

/-- A component-reading operation applied to the pointer representation:
`Quad` dereferences both halves (crash on nil modelled as `none`). -/
def CayleyPtr.Quad : Option Hamilton × Option Hamilton → Option ℚ
  | (some p, some q) => some (Cayley.Quad ⟨p, q⟩)
  | _ => none

/-- `Equals` on the pointer representation dereferences both halves of both
operands (crash on nil modelled as `none`). -/
def CayleyPtr.Equals :
    Option Hamilton × Option Hamilton → Option Hamilton × Option Hamilton →
      Option Bool
  | (some p, some q), (some r, some s) => some (decide (p = r ∧ q = s))
  | _, _ => none

/-- `Add` on the pointer representation dereferences both halves of both
operands (crash on nil modelled as `none`). -/
def CayleyPtr.Add :
    Option Hamilton × Option Hamilton → Option Hamilton × Option Hamilton →
      Option Octo
  | (some p, some q), (some r, some s) => some (Cayley.Add ⟨p, q⟩ ⟨r, s⟩)
  | _, _ => none

/-- Claim C1: for `x = (p,q)`, `y = (r,s)`, the definite product is
`(p·r − conj(s)·q, s·p + q·conj(r))`, the split product is
`(p·r + conj(s)·q, s·p + q·conj(r))`, and the sign in the first component
is the only difference: the second components agree. -/
theorem claim_C1_mul_formulas (x y : Octo) :
    Cayley.Mul x y =
      ⟨Hamilton.Sub (Hamilton.Mul x.p y.p) (Hamilton.Mul (Hamilton.Conj y.q) x.q),
       Hamilton.Add (Hamilton.Mul y.q x.p) (Hamilton.Mul x.q (Hamilton.Conj y.p))⟩ ∧
    Klein.Mul x y =
      ⟨Hamilton.Add (Hamilton.Mul x.p y.p) (Hamilton.Mul (Hamilton.Conj y.q) x.q),
       Hamilton.Add (Hamilton.Mul y.q x.p) (Hamilton.Mul x.q (Hamilton.Conj y.p))⟩ ∧
    (Cayley.Mul x y).q = (Klein.Mul x y).q := ⟨rfl, rfl, rfl⟩

/-- Claim C2: in each variant, `Inv y` aborts (returns `none`) exactly when
`y` is the additive-identity value, and for every `x`, `Quo x y` aborts
under the same condition on `y`. -/
theorem claim_C2_zero_divisor_guard (y : Octo) :
    (Cayley.Inv y = none ↔ y = Octo.zero) ∧
    (∀ x, Cayley.Quo x y = none ↔ y = Octo.zero) ∧
    (Klein.Inv y = none ↔ y = Octo.zero) ∧
    (∀ x, Klein.Quo x y = none ↔ y = Octo.zero) := by
  by_cases h : y = Octo.zero <;>
    simp [Cayley.Inv, Cayley.Quo, Klein.Inv, Klein.Quo, h]

/-- Claim C4 (code bug): the source documents
`ScalR(y, a) = Mul(y, Hamilton{a, 0})` and
`ScalL(a, y) = Mul(Hamilton{a, 0}, y)`, but the code violates both: with
`y = (0, 1)` and `a = i`, `ScalR` yields second half `1·i = i` while
`Mul(y, (i, 0))` yields `1·conj(i) = −i`; with `y = (0, j)` and `a = i`,
`ScalL` yields second half `i·j = k` while `Mul((i, 0), y)` yields
`j·i = −k`. -/
theorem claim_C4_scal_not_mul_special_case :
    Cayley.ScalR (NewOcto 0 0 0 0 1 0 0 0) ⟨0, 1, 0, 0⟩ =
      NewOcto 0 0 0 0 0 1 0 0 ∧
    Cayley.Mul (NewOcto 0 0 0 0 1 0 0 0) ⟨⟨0, 1, 0, 0⟩, Hamilton.zero⟩ =
      NewOcto 0 0 0 0 0 (-1) 0 0 ∧
    Cayley.ScalR (NewOcto 0 0 0 0 1 0 0 0) ⟨0, 1, 0, 0⟩ ≠
      Cayley.Mul (NewOcto 0 0 0 0 1 0 0 0) ⟨⟨0, 1, 0, 0⟩, Hamilton.zero⟩ ∧
    Cayley.ScalL ⟨0, 1, 0, 0⟩ (NewOcto 0 0 0 0 0 0 1 0) ≠
      Cayley.Mul ⟨⟨0, 1, 0, 0⟩, Hamilton.zero⟩ (NewOcto 0 0 0 0 0 0 1 0) ∧
    Klein.ScalR (NewOcto 0 0 0 0 1 0 0 0) ⟨0, 1, 0, 0⟩ ≠
      Klein.Mul (NewOcto 0 0 0 0 1 0 0 0) ⟨⟨0, 1, 0, 0⟩, Hamilton.zero⟩ ∧
    Klein.ScalL ⟨0, 1, 0, 0⟩ (NewOcto 0 0 0 0 0 0 1 0) ≠
      Klein.Mul ⟨⟨0, 1, 0, 0⟩, Hamilton.zero⟩ (NewOcto 0 0 0 0 0 0 1 0) := by
  refine ⟨?_, ?_, ?_, ?_, ?_, ?_⟩ <;>
    norm_num [Cayley.ScalR, Cayley.ScalL, Cayley.Mul, Klein.ScalR, Klein.ScalL,
      Klein.Mul, Hamilton.Mul, Hamilton.Conj, Hamilton.Sub, Hamilton.Add,
      Hamilton.zero, NewOcto, Octo.mk.injEq, Hamilton.mk.injEq]

/-- Claim C5: `Quad` returns `Quad(p) + Quad(q)` in the definite variant and
`Quad(p) − Quad(q)` in the split one; the definite quadrance is always
non-negative, while the split quadrance can be negative, and zero on a
nonzero input. -/
theorem claim_C5_quadrance (y : Octo) :
    Cayley.Quad y = y.p.Quad + y.q.Quad ∧
    Klein.Quad y = y.p.Quad - y.q.Quad ∧
    0 ≤ Cayley.Quad y ∧
    (∃ z : Octo, Klein.Quad z < 0) ∧
    (∃ z : Octo, z ≠ Octo.zero ∧ Klein.Quad z = 0) := by
  refine ⟨rfl, rfl, ?_,
    ⟨NewOcto 0 0 0 0 1 0 0 0, by norm_num [Klein.Quad, Hamilton.Quad, NewOcto]⟩,
    ⟨NewOcto 1 0 0 0 1 0 0 0,
      by norm_num [NewOcto, Octo.zero, Hamilton.zero, Octo.mk.injEq, Hamilton.mk.injEq],
      by norm_num [Klein.Quad, Hamilton.Quad, NewOcto]⟩⟩
  obtain ⟨⟨a1, b1, c1, d1⟩, ⟨e1, f1, g1, h1⟩⟩ := y
  simp only [Cayley.Quad, Hamilton.Quad]
  positivity

/-- Claim C6: in both variants, the quadrance of a product is the product of
the quadrances (the composition-algebra identity, exact over the rationals
in this model). -/
theorem claim_C6_composition (x y : Octo) :
    Cayley.Quad (Cayley.Mul x y) = Cayley.Quad x * Cayley.Quad y ∧
    Klein.Quad (Klein.Mul x y) = Klein.Quad x * Klein.Quad y := by
  obtain ⟨⟨a1, b1, c1, d1⟩, ⟨e1, f1, g1, h1⟩⟩ := x
  obtain ⟨⟨a2, b2, c2, d2⟩, ⟨e2, f2, g2, h2⟩⟩ := y
  constructor <;>
    · simp only [Cayley.Mul, Klein.Mul, Cayley.Quad, Klein.Quad, Hamilton.Mul,
        Hamilton.Add, Hamilton.Sub, Hamilton.Conj, Hamilton.Quad]
      ring

/-- Claim C7: in each variant, `Conj x = (conj p, −q)`, and conjugation is
involutive: applying it twice restores the value exactly. -/
theorem claim_C7_conj_involutive (x : Octo) :
    Cayley.Conj x = ⟨x.p.Conj, x.q.Neg⟩ ∧
    Klein.Conj x = ⟨x.p.Conj, x.q.Neg⟩ ∧
    Cayley.Conj (Cayley.Conj x) = x ∧
    Klein.Conj (Klein.Conj x) = x := by
  obtain ⟨⟨a1, b1, c1, d1⟩, ⟨e1, f1, g1, h1⟩⟩ := x
  refine ⟨rfl, rfl, ?_, ?_⟩ <;>
    simp [Cayley.Conj, Klein.Conj, Hamilton.Conj, Hamilton.Neg]

/-- Multiplying any modelled float by positive infinity never yields a
finite value (it is `±Inf` for nonzero finite or infinite operands and
`NaN` for zero or NaN operands). -/
theorem infOrNan_mulF_pinf (v : F) :
    (isInfF (mulF v F.pinf) || isNanF (mulF v F.pinf)) = true := by
  cases v <;> simp only [mulF] <;> (try split_ifs) <;> rfl

/-- Dilating any float-model octonion by `+Inf` produces a value every
coordinate of which is non-finite, so the value reports `IsInf` or
`IsNaN`. -/
theorem dil_pinf_nonfinite (y : OctoE) :
    (KleinE.IsInf (KleinE.Dil y F.pinf) || KleinE.IsNaN (KleinE.Dil y F.pinf)) = true := by
  cases hI : KleinE.IsInf (KleinE.Dil y F.pinf)
  · rw [Bool.false_or]
    simp only [KleinE.IsInf, KleinE.Dil, HamiltonE.Dil, HamiltonE.IsInf,
      Bool.or_eq_false_iff] at hI
    obtain ⟨⟨⟨⟨h1, h2⟩, h3⟩, h4⟩, ⟨⟨h5, h6⟩, h7⟩, h8⟩ := hI
    have n1 : isNanF (mulF y.p.a F.pinf) = true := by
      have hin := infOrNan_mulF_pinf y.p.a
      rw [h1, Bool.false_or] at hin
      exact hin
    simp only [KleinE.IsNaN, KleinE.Dil, HamiltonE.Dil, HamiltonE.IsInf,
      HamiltonE.IsNaN]
    simp [h1, h2, h3, h4, h5, h6, h7, h8, n1]
  · simp [hI]

/-- Claim C3: in the split variant there is a nonzero isotropic value
(quadrance exactly zero), and inverting any such value does not trip the
zero-divisor guard — it silently yields a non-finite (Inf/NaN) result. -/
theorem claim_C3_klein_isotropic_inverse :
    (∃ x : OctoE, x ≠ OctoE.zero ∧ KleinE.Quad x = F.fin 0) ∧
    ∀ x : OctoE, x ≠ OctoE.zero → KleinE.Quad x = F.fin 0 →
      KleinE.Inv x ≠ none ∧
      ∀ r, KleinE.Inv x = some r →
        (KleinE.IsInf r || KleinE.IsNaN r) = true := by
  constructor
  · refine ⟨NewOctoE (F.fin 1) (F.fin 0) (F.fin 0) (F.fin 0)
      (F.fin 1) (F.fin 0) (F.fin 0) (F.fin 0), ?_, ?_⟩
    · norm_num [NewOctoE, OctoE.zero, HamiltonE.zero, OctoE.mk.injEq,
        HamiltonE.mk.injEq]
    · norm_num [NewOctoE, KleinE.Quad, HamiltonE.Quad, mulF, addF, subF, negF]
  · intro x hx hq
    have hinv : KleinE.Inv x =
        some (KleinE.Dil (KleinE.Conj x) (oneDivF (KleinE.Quad x))) := by
      simp [KleinE.Inv, hx]
    refine ⟨by simp [hinv], ?_⟩
    intro r hr
    rw [hinv, hq] at hr
    simp only [oneDivF, if_pos] at hr
    obtain rfl : r = KleinE.Dil (KleinE.Conj x) F.pinf := (Option.some.inj hr).symm
    exact dil_pinf_nonfinite (KleinE.Conj x)

/-- Witness for C3: the concrete isotropic value `(1,0,0,0,1,0,0,0)` passes
the guard and inverts to `(+Inf, NaN, NaN, NaN, -Inf, NaN, NaN, NaN)`,
which reports infinite. -/
theorem claim_C3_witness :
    KleinE.Inv (NewOctoE (F.fin 1) (F.fin 0) (F.fin 0) (F.fin 0)
        (F.fin 1) (F.fin 0) (F.fin 0) (F.fin 0)) ≠ none ∧
    (KleinE.IsInf ⟨⟨F.pinf, F.nan, F.nan, F.nan⟩, ⟨F.ninf, F.nan, F.nan, F.nan⟩⟩ ||
      KleinE.IsNaN ⟨⟨F.pinf, F.nan, F.nan, F.nan⟩, ⟨F.ninf, F.nan, F.nan, F.nan⟩⟩) = true := by
  have h := claim_C3_klein_isotropic_inverse.2
    (NewOctoE (F.fin 1) (F.fin 0) (F.fin 0) (F.fin 0)
      (F.fin 1) (F.fin 0) (F.fin 0) (F.fin 0))
    (by norm_num [NewOctoE, OctoE.zero, HamiltonE.zero, OctoE.mk.injEq,
      HamiltonE.mk.injEq])
    (by norm_num [NewOctoE, KleinE.Quad, HamiltonE.Quad, mulF, addF, subF, negF])
  refine ⟨h.1, h.2 _ ?_⟩
  norm_num [NewOctoE, KleinE.Inv, KleinE.Dil, KleinE.Conj, KleinE.Quad,
    HamiltonE.Dil, HamiltonE.Conj, HamiltonE.Neg, HamiltonE.Quad,
    OctoE.zero, HamiltonE.zero, OctoE.mk.injEq, HamiltonE.mk.injEq,
    mulF, addF, subF, negF, oneDivF]

/-- Claim C8: the definite variant renders `(1,…,8)` as
`(1+2i+3j+4k+5m+6n+7p+8q)` and the split variant, with basis symbols
`i j k s t u v`, as `(1+2i+3j+4k+5s+6t+7u+8v)`; each coefficient after the
first carries an explicit `+` when non-negative finite, a native `-` when
negative, and renders as the literal `+Inf` when positive infinity. -/
theorem claim_C8_string_rendering :
    CayleyE.toString (NewOctoE (F.fin 1) (F.fin 2) (F.fin 3) (F.fin 4)
        (F.fin 5) (F.fin 6) (F.fin 7) (F.fin 8)) =
      "(1+2i+3j+4k+5m+6n+7p+8q)" ∧
    KleinE.toString (NewOctoE (F.fin 1) (F.fin 2) (F.fin 3) (F.fin 4)
        (F.fin 5) (F.fin 6) (F.fin 7) (F.fin 8)) =
      "(1+2i+3j+4k+5s+6t+7u+8v)" ∧
    (∀ x : ℚ, coeffTok (F.fin x) =
      if x < 0 then "-" ++ fmtMag (-x) else "+" ++ fmtMag x) ∧
    coeffTok F.pinf = "+Inf" := by
  refine ⟨?_, ?_, ?_, rfl⟩
  · norm_num [CayleyE.toString, NewOctoE, coeffTok, signbitF, fmtG, fmtQ, fmtMag]
    rfl
  · norm_num [KleinE.toString, NewOctoE, coeffTok, signbitF, fmtG, fmtQ, fmtMag]
    rfl
  · intro x
    by_cases h : x < 0 <;>
      simp [coeffTok, signbitF, fmtG, fmtQ, h]

/-- Claim C9: in each variant `IsNaN z` is true exactly when neither
quaternion component is infinite and at least one component reports NaN;
in particular `IsNaN` and `IsInf` are never simultaneously true (infinity
takes precedence over NaN). -/
theorem claim_C9_isnan_semantics (z : OctoE) :
    (CayleyE.IsNaN z = true ↔
      (z.p.IsInf = false ∧ z.q.IsInf = false) ∧
        (z.p.IsNaN = true ∨ z.q.IsNaN = true)) ∧
    (KleinE.IsNaN z = true ↔
      (z.p.IsInf = false ∧ z.q.IsInf = false) ∧
        (z.p.IsNaN = true ∨ z.q.IsNaN = true)) ∧
    (CayleyE.IsInf z && CayleyE.IsNaN z) = false ∧
    (KleinE.IsInf z && KleinE.IsNaN z) = false := by
  cases hp : z.p.IsInf <;> cases hq : z.q.IsInf <;>
    cases hpn : z.p.IsNaN <;> cases hqn : z.q.IsNaN <;>
      simp [CayleyE.IsNaN, KleinE.IsNaN, CayleyE.IsInf, KleinE.IsInf,
        hp, hq, hpn, hqn]

/-- Claim C10: `RectCayley` returns a value whose two quaternion pointers
are both nil whatever the eight arguments (the coordinate formulas are
commented out), so any component-reading operation on its result
dereferences nil and crashes (modelled as `none`). -/
theorem claim_C10_rect_nil_components (r t1 t2 t3 t4 t5 t6 t7 : ℚ) :
    RectCayley r t1 t2 t3 t4 t5 t6 t7 = (none, none) ∧
    CayleyPtr.Quad (RectCayley r t1 t2 t3 t4 t5 t6 t7) = none ∧
    (∀ w, CayleyPtr.Equals (RectCayley r t1 t2 t3 t4 t5 t6 t7) w = none) ∧
    (∀ w, CayleyPtr.Add (RectCayley r t1 t2 t3 t4 t5 t6 t7) w = none) := by
  refine ⟨rfl, rfl, ?_, ?_⟩ <;>
    · rintro ⟨_ | _, _ | _⟩ <;> rfl
